import Mathlib

/-!
Verification development for the `purr` kubectl companion core.

The Go sources are embedded shallowly:
  * Go strings are Lean `String`s; string primitives (`strings.Fields`,
    `strings.TrimSpace`, `strings.HasPrefix`, ...) are re-implemented on
    `String.data` (`List Char`) so that every definition is executable and
    kernel-reducible.  Whitespace is the ASCII whitespace set, which covers
    every input appearing in the specification.
  * Go maps (`map[string]string`, `map[string]bool`, the registry map) are
    association lists with in-place-overwrite insertion, matching Go map
    lookup/insert semantics; iteration order, which Go leaves unspecified,
    is the insertion order of the list.
  * `float64` scores are embedded as `Int`: every score produced by the
    program is a sum of small integer constants, on which `float64`
    arithmetic is exact and order-isomorphic to `Int`.
-/

namespace Purr

/-! ## String primitives (embeddings of Go's `strings` helpers) -/

/-- ASCII whitespace, the fragment of Go's `unicode.IsSpace` exercised here. -/
def isSpaceChar (c : Char) : Bool :=
  c = ' ' || c = '\t' || c = '\n' || c = '\r' || c = '\x0b' || c = '\x0c'

def dropLeadingSpace : List Char → List Char
  | [] => []
  | c :: cs => if isSpaceChar c then dropLeadingSpace cs else c :: cs

/-- Embedding of Go `strings.TrimSpace`. -/
def trimSpace (s : String) : String :=
  ⟨(dropLeadingSpace ((dropLeadingSpace s.data).reverse)).reverse⟩

/-- Embedding of Go `strings.HasPrefix`. -/
def hasPrefix (s pre : String) : Bool :=
  pre.data.isPrefixOf s.data

/-- Embedding of Go `strings.TrimPrefix`. -/
def trimPrefix (s pre : String) : String :=
  if hasPrefix s pre then ⟨s.data.drop pre.data.length⟩ else s

def isInfixList (sub : List Char) : List Char → Bool
  | [] => sub.isEmpty
  | c :: cs => sub.isPrefixOf (c :: cs) || isInfixList sub cs

/-- Embedding of Go `strings.Contains` (substring containment). -/
def containsSub (s sub : String) : Bool :=
  isInfixList sub.data s.data

def fieldsAux : List Char → List Char → List String
  | [], acc => if acc.isEmpty then [] else [⟨acc.reverse⟩]
  | c :: cs, acc =>
    if isSpaceChar c then
      if acc.isEmpty then fieldsAux cs [] else (⟨acc.reverse⟩ : String) :: fieldsAux cs []
    else
      fieldsAux cs (c :: acc)

/-- Embedding of Go `strings.Fields`: split around runs of whitespace. -/
def fields (s : String) : List String :=
  fieldsAux s.data []

/-- Embedding of Go `strings.Join(_, " ")` (used with sep `" "` only). -/
def joinTokens : List String → String
  | [] => ""
  | [x] => x
  | x :: xs => x ++ " " ++ joinTokens xs

/-- Embedding of Go `strings.Split(_, " ")` restricted to its first
component use-site: splits at every single space, never empty. -/
def splitOnSpaceAux : List Char → List Char → List String
  | [], acc => [⟨acc.reverse⟩]
  | c :: cs, acc =>
    if c = ' ' then (⟨acc.reverse⟩ : String) :: splitOnSpaceAux cs []
    else splitOnSpaceAux cs (c :: acc)

def splitOnSpace (s : String) : List String :=
  splitOnSpaceAux s.data []

/-- First component of Go `strings.SplitN(s, "/", 2)`: the prefix of `s`
before the first `'/'` (or all of `s`). -/
def takeBeforeSlash : List Char → List Char
  | [] => []
  | c :: cs => if c = '/' then [] else c :: takeBeforeSlash cs

/-- Go compares strings byte-wise lexicographically; on the code points
appearing here this is code-point comparison. -/
def charLt (a b : Char) : Bool :=
  decide (a.toNat < b.toNat)

def lexLtChars : List Char → List Char → Bool
  | [], [] => false
  | [], _ :: _ => true
  | _ :: _, [] => false
  | a :: as, b :: bs =>
    if charLt a b then true else if charLt b a then false else lexLtChars as bs

/-- Embedding of Go `<` on strings. -/
def strLt (a b : String) : Bool :=
  lexLtChars a.data b.data

/-- Embedding of Go `<=` on strings. -/
def strLe (a b : String) : Bool :=
  !strLt b a

/-! ## Association lists with Go-map semantics -/

def mapLookup {α : Type} : List (String × α) → String → Option α
  | [], _ => none
  | (k, v) :: rest, key => if k = key then some v else mapLookup rest key

def mapLookupD {α : Type} (m : List (String × α)) (key : String) (d : α) : α :=
  (mapLookup m key).getD d

/-- Go `m[key] = v`: overwrites in place when present, appends otherwise. -/
def mapInsert {α : Type} : List (String × α) → String → α → List (String × α)
  | [], key, v => [(key, v)]
  | (k, w) :: rest, key, v =>
    if k = key then (k, v) :: rest else (k, w) :: mapInsert rest key v

/-- Go `delete(m, key)`. -/
def mapErase {α : Type} : List (String × α) → String → List (String × α)
  | [], _ => []
  | (k, w) :: rest, key => if k = key then rest else (k, w) :: mapErase rest key

/-! ## `internal/exec/kubectl.go`: destructive-command classification -/

/-- Embedding of `exec.IsDestructive` (`internal/exec/kubectl.go`).  The
input is trimmed, shell commands (leading `!`) are never destructive, the
verb examined is the FIRST whitespace token of the trimmed command (a
leading `kubectl` is not stripped here, unlike `GetCommandVerb` and
`parseCommandString` in the same file), and any `--force` token makes the
command destructive. -/
def isDestructive (command : String) : Bool :=
  let trimmed := trimSpace command
  if hasPrefix trimmed "!" then false
  else
    let args := fields trimmed
    match args with
    | [] => false
    | verb :: _ =>
      if ["delete", "drain", "cordon", "rollout"].contains verb then true
      else args.contains "--force"

/-- Embedding of `exec.GetCommandVerb` (same file): note that THIS function
does strip a leading `kubectl `. -/
def getCommandVerb (command : String) : String :=
  let command := trimSpace command
  if hasPrefix command "!" then ""
  else
    let command := trimPrefix command "kubectl "
    match fields command with
    | [] => ""
    | verb :: _ => verb

/-! ## `pkg/types` + the command parser (`Parser.Parse` and helpers) -/

inductive CompletionType where
  | completionNamespace
  | completionResourceName
  | completionContainer
  | completionFile
  | completionOutputFormat
  | completionContext
  | completionNode
  deriving DecidableEq, Repr

structure CompletionNeeded where
  type : CompletionType
  flag : String
  required : Bool
  deriving DecidableEq, Repr

/-- Embedding of `types.ParsedCommand`.  `Namespace` is rendered
`«namespace»` because `namespace` is a Lean keyword. -/
structure ParsedCommand where
  raw : String
  verb : String
  resource : String
  resourceName : String
  «namespace» : String
  flags : List (String × String)
  boolFlags : List (String × Bool)
  files : List String
  isComplete : Bool
  needsInput : List CompletionNeeded
  isValid : Bool
  errors : List String
  deriving DecidableEq, Repr

/-- Embedding of `isBooleanFlag` (`internal/exec/parser.go`).  Note the
table mixes long names with the short letters `A`, `w`, `f`, `h`. -/
def isBooleanFlag (flag : String) : Bool :=
  ["all-namespaces", "A",
   "watch", "w",
   "force",
   "dry-run",
   "follow", "f",
   "help", "h",
   "no-headers",
   "show-labels",
   "wide"].contains flag

/-- Embedding of `isBooleanShortFlag`. -/
def isBooleanShortFlag (flag : String) : Bool :=
  isBooleanFlag flag

/-- Embedding of `expandShortFlag`. -/
def expandShortFlag (short : String) : String :=
  match mapLookup [("n", "namespace"), ("f", "filename"), ("o", "output"),
                   ("l", "selector"), ("c", "container"), ("A", "all-namespaces"),
                   ("w", "watch"), ("h", "help")] short with
  | some long => long
  | none => short

/-- Embedding of `getFlagCompletionType`. -/
def getFlagCompletionType (flag : String) : CompletionType :=
  if flag = "namespace" then .completionNamespace
  else if flag = "filename" then .completionFile
  else if flag = "output" then .completionOutputFormat
  else if flag = "container" then .completionContainer
  else if flag = "context" then .completionContext
  else .completionNamespace

/-- Embedding of `isRequiredFlag`. -/
def isRequiredFlag (verb flag : String) : Bool :=
  match mapLookup [("apply", ["filename"])] verb with
  | some required => required.contains flag
  | none => false

/-- Embedding of `normalizeResourceType`. -/
def normalizeResourceType (resource : String) : String :=
  match mapLookup
      [("po", "pods"), ("svc", "services"), ("deploy", "deployments"),
       ("rs", "replicasets"), ("rc", "replicationcontrollers"),
       ("ds", "daemonsets"), ("sts", "statefulsets"), ("cm", "configmaps"),
       ("secret", "secrets"), ("ing", "ingresses"), ("ns", "namespaces"),
       ("no", "nodes"), ("pv", "persistentvolumes"),
       ("pvc", "persistentvolumeclaims"), ("sa", "serviceaccounts"),
       ("cj", "cronjobs")] resource with
  | some full => full
  | none => resource

/-- Embedding of `tokenize`. -/
def tokenize (command : String) : List String :=
  fields command

/-- One iteration of the `for position < len(tokens)` loop of
`Parser.Parse`: processes token `tok` with `next?` the following token (if
any); returns the updated command and whether the next token was consumed
as a flag value (`position += 2`). -/
def parseStep (verb tok : String) (next? : Option String) (cmd : ParsedCommand) :
    ParsedCommand × Bool :=
  if hasPrefix tok "--" then
    let flagName := trimPrefix tok "--"
    if isBooleanFlag flagName then
      ({ cmd with boolFlags := mapInsert cmd.boolFlags flagName true }, false)
    else
      match next? with
      | some v =>
        if !hasPrefix v "-" then
          let cmd := { cmd with flags := mapInsert cmd.flags flagName v }
          let cmd :=
            if flagName = "namespace" then { cmd with «namespace» := v }
            else if flagName = "filename" then { cmd with files := cmd.files ++ [v] }
            else cmd
          (cmd, true)
        else
          ({ cmd with needsInput := cmd.needsInput ++
              [⟨getFlagCompletionType flagName, flagName, isRequiredFlag verb flagName⟩] },
           false)
      | none =>
        ({ cmd with needsInput := cmd.needsInput ++
            [⟨getFlagCompletionType flagName, flagName, isRequiredFlag verb flagName⟩] },
         false)
  else if hasPrefix tok "-" && tok.length == 2 then
    let flagName := trimPrefix tok "-"
    if isBooleanShortFlag flagName then
      ({ cmd with boolFlags := mapInsert cmd.boolFlags (expandShortFlag flagName) true }, false)
    else
      let fullFlag := expandShortFlag flagName
      match next? with
      | some v =>
        if !hasPrefix v "-" then
          let cmd := { cmd with flags := mapInsert cmd.flags fullFlag v }
          let cmd :=
            if fullFlag = "namespace" then { cmd with «namespace» := v }
            else if fullFlag = "filename" then { cmd with files := cmd.files ++ [v] }
            else cmd
          (cmd, true)
        else
          ({ cmd with needsInput := cmd.needsInput ++
              [⟨getFlagCompletionType fullFlag, fullFlag, isRequiredFlag verb fullFlag⟩] },
           false)
      | none =>
        ({ cmd with needsInput := cmd.needsInput ++
            [⟨getFlagCompletionType fullFlag, fullFlag, isRequiredFlag verb fullFlag⟩] },
         false)
  else
    let cmd :=
      if cmd.resource = "" then { cmd with resource := normalizeResourceType tok }
      else if cmd.resourceName = "" then { cmd with resourceName := tok }
      else cmd
    (cmd, false)

/-- The flag/positional walk of `Parser.Parse`, driving `parseStep` over the
tokens after the verb. -/
def parseTokens (verb : String) : List String → ParsedCommand → ParsedCommand
  | [], cmd => cmd
  | [tok], cmd => (parseStep verb tok none cmd).1
  | tok :: v :: rest2, cmd =>
    match parseStep verb tok (some v) cmd with
    | (cmd, true) => parseTokens verb rest2 cmd
    | (cmd, false) => parseTokens verb (v :: rest2) cmd

/-- Embedding of `(*Parser).checkCompletions`. -/
def checkCompletions (cmd : ParsedCommand) : ParsedCommand :=
  let needsResource := ["get", "describe", "delete", "edit", "logs", "exec"].contains cmd.verb
  if needsResource && cmd.resource == "" then
    { cmd with needsInput := cmd.needsInput ++ [⟨.completionResourceName, "", true⟩],
               isComplete := false }
  else
    let needsResourceName := ["describe", "delete", "edit", "logs", "exec"].contains cmd.verb
    if needsResourceName && cmd.resourceName == "" && cmd.resource != "" then
      { cmd with needsInput := cmd.needsInput ++ [⟨.completionResourceName, "", true⟩],
                 isComplete := false }
    else
      { cmd with isComplete := !(cmd.needsInput.any (·.required)) }

/-- Embedding of `(*Parser).Parse` (`internal/exec/parser.go`). -/
def parse (command : String) : ParsedCommand :=
  let cmd : ParsedCommand :=
    { raw := command, verb := "", resource := "", resourceName := "",
      «namespace» := "", flags := [], boolFlags := [], files := [],
      isComplete := false, needsInput := [], isValid := true, errors := [] }
  let command := trimSpace command
  if hasPrefix command "!" then
    { cmd with isValid := false, errors := cmd.errors ++ ["shell command"] }
  else
    let command := trimSpace (trimPrefix command "kubectl ")
    if command = "" then
      { cmd with isValid := false, errors := cmd.errors ++ ["empty command"] }
    else
      match tokenize command with
      | [] => { cmd with isValid := false, errors := cmd.errors ++ ["no command specified"] }
      | verb :: restTokens =>
        let cmd := { cmd with verb := verb }
        checkCompletions (parseTokens verb restTokens cmd)

/-! ## `kubecomplete`: command-spec registry (`part_010`) -/

inductive TokenKind where
  | tokenLiteral
  | tokenResourceType
  | tokenResourceName
  | tokenResourceNameOrSelector
  | tokenResourceTarget
  | tokenNamespace
  | tokenSelector
  | tokenContainerName
  | tokenOutput
  | tokenDuration
  | tokenOther
  deriving DecidableEq, Repr

/-- Embedding of `kubecomplete.TokenDescriptor`. -/
structure TokenDescriptor where
  kind : TokenKind
  role : String
  required : Bool
  value : String
  allowed : List String
  deriving DecidableEq, Repr

/-- Embedding of `kubecomplete.FlagDescriptor`; `after = none` when the
flag takes no value. -/
structure FlagDescriptor where
  kind : String
  primary : String
  aliases : List String
  role : String
  required : Bool
  after : Option TokenDescriptor
  description : String
  deriving DecidableEq, Repr

/-- Go's zero value for `FlagDescriptor` (produced by a missing map key). -/
def defaultFlagDescriptor : FlagDescriptor :=
  { kind := "", primary := "", aliases := [], role := "", required := false,
    after := none, description := "" }

/-- Embedding of `kubecomplete.CommandSpec`; the JSON `flags` object is an
association list keyed by the primary form. -/
structure CommandSpec where
  path : List String
  synopsis : String
  description : String
  positionals : List TokenDescriptor
  flags : List (String × FlagDescriptor)
  deriving DecidableEq, Repr

structure RootSpec where
  version : String
  generatedFrom : String
  commands : List CommandSpec
  deriving DecidableEq, Repr

/-- Embedding of `kubecomplete.CommandRuntime`. -/
structure CommandRuntime where
  spec : CommandSpec
  key : String
  aliasToPrimary : List (String × String)
  deriving DecidableEq, Repr

/-- Embedding of `kubecomplete.Registry`; the Go map keyed by the
space-joined path is an association list (iteration order = insertion
order). -/
structure Registry where
  commands : List (String × CommandRuntime)
  deriving DecidableEq, Repr

/-- The alias table built for one spec inside `NewRegistry`. -/
def mkRuntimeAliases (flags : List (String × FlagDescriptor)) : List (String × String) :=
  flags.foldl
    (fun m kv =>
      let primary := kv.1
      let flag := kv.2
      let m := mapInsert m flag.primary primary
      let m := flag.aliases.foldl (fun m al => mapInsert m al primary) m
      if primary ≠ flag.primary then mapInsert m primary primary else m)
    []

/-- The `CommandRuntime` built for one spec inside `NewRegistry`. -/
def mkRuntime (spec : CommandSpec) : CommandRuntime :=
  { spec := spec, key := joinTokens spec.path,
    aliasToPrimary := mkRuntimeAliases spec.flags }

/-- Embedding of `kubecomplete.NewRegistry`. -/
def newRegistry (root : RootSpec) : Registry :=
  { commands :=
      root.commands.foldl
        (fun m spec => mapInsert m (joinTokens spec.path) (mkRuntime spec)) [] }

/-- The `for i := len(tokens); i > 0; i--` loop of `Registry.MatchCommand`. -/
def matchCommandAux (r : Registry) (tokens : List String) : Nat → Option (CommandRuntime × Nat)
  | 0 => none
  | i + 1 =>
    match mapLookup r.commands (joinTokens (tokens.take (i + 1))) with
    | some cmd => some (cmd, i + 1)
    | none => matchCommandAux r tokens i

/-- Embedding of `Registry.MatchCommand`: longest joined prefix of `tokens`
that is a key of the registry map. -/
def matchCommand (r : Registry) (tokens : List String) : Option (CommandRuntime × Nat) :=
  match tokens with
  | [] => none
  | _ => matchCommandAux r tokens tokens.length

/-- The seen-map fold of `Registry.TopLevelCommands` collecting the first
token of every key, without duplicates, in iteration order. -/
def collectFirstTokens : List (String × CommandRuntime) → List String → List String → List String
  | [], _, out => out
  | (key, _) :: rest, seen, out =>
    match splitOnSpace key with
    | [] => collectFirstTokens rest seen out
    | first :: _ =>
      if first ∈ seen then collectFirstTokens rest seen out
      else collectFirstTokens rest (first :: seen) (out ++ [first])

/-- Embedding of Go `sort.Strings`. -/
def sortStrings (l : List String) : List String :=
  List.insertionSort (fun a b => strLe a b = true) l

/-- Embedding of `Registry.TopLevelCommands`. -/
def topLevelCommands (r : Registry) : List String :=
  sortStrings (collectFirstTokens r.commands [] [])

/-- A token that can round-trip through `strings.Join(_, " ")`: nonempty
and space-free. -/
def cleanToken (t : String) : Prop :=
  t ≠ "" ∧ ' ' ∉ t.data

instance (t : String) : Decidable (cleanToken t) := by
  unfold cleanToken; infer_instance

/-! ## `kubecomplete`: suggestion model and completion engine
(`part_008`, `internal/kubecomplete/completer.go`, second revision — the
one with the flag-value and all-positionals-satisfied branches; the
`debugLog` file writes are I/O-only and dropped) -/

inductive SuggestionKind where
  | suggestCommand
  | suggestFlag
  | suggestFlagValue
  | suggestResourceType
  | suggestResourceName
  | suggestNamespace
  | suggestContainer
  | suggestOther
  deriving DecidableEq, Repr

/-- Embedding of `kubecomplete.Suggestion` (score: see header note on
`float64`). -/
structure Suggestion where
  value : String
  kind : SuggestionKind
  description : String
  score : Int
  deriving DecidableEq, Repr

structure CompletionContext where
  line : String
  cursor : Int
  currentNamespace : String
  deriving DecidableEq, Repr

/-- Embedding of the `kubecomplete.ClusterCache` interface: a snapshot of
the five read operations the completer calls. -/
structure ClusterCache where
  namespaces : List String
  resourceTypes : List String
  resourceTypesForCommand : List String → List String
  resourceNames : String → String → List String
  containers : String → String → String → List String

structure Completer where
  registry : Option Registry
  cache : Option ClusterCache

/-- The sort order of `sortSuggestions`: score descending, value ascending
on ties (the reflexive closure of the `sort.Slice` comparator `less`). -/
def suggOrdered (a b : Suggestion) : Prop :=
  b.score < a.score ∨ (a.score = b.score ∧ strLe a.value b.value = true)

instance : DecidableRel suggOrdered := fun a b => by
  unfold suggOrdered; infer_instance

/-- Embedding of `sortSuggestions` (`part_008`): `sort.Slice` with the
comparator `less(i,j) = s[i].Score > s[j].Score || (s[i].Score ==
s[j].Score && s[i].Value < s[j].Value)` guarantees exactly a permutation
of the input sorted with respect to `less`; insertion sort by the
reflexive closure is such a sort. -/
def sortSuggestions (l : List Suggestion) : List Suggestion :=
  List.insertionSort suggOrdered l

/-- Embedding of `shellSplit`. -/
def shellSplit (s : String) : List String :=
  fields s

/-- Embedding of `normalizeKubectl`. -/
def normalizeKubectl (tokens : List String) : List String :=
  match tokens with
  | [] => []
  | t :: rest => if t = "kubectl" then rest else t :: rest

/-- Embedding of `isFlagToken`. -/
def isFlagToken (tok : String) : Bool :=
  hasPrefix tok "-"

/-- Embedding of `scorePrefix`. -/
def scorePrefix (value pre : String) : Int :=
  if pre = "" then 0
  else if hasPrefix value pre then (pre.length : Int) + 10
  else if containsSub value pre then (pre.length : Int)
  else 0

/-- Embedding of `Completer.suggestTopLevelCommands`. -/
def suggestTopLevelCommands (reg : Registry) (pre : String) : List Suggestion :=
  sortSuggestions <| (topLevelCommands reg).filterMap fun name =>
    if pre = "" || hasPrefix name pre then
      some { value := name, kind := .suggestCommand, description := "",
             score := scorePrefix name pre }
    else none

/-- One registry entry processed by the `suggestSubcommands` loop; the
accumulator is the `seen` set paired with the output so far.  The Go
check `i >= len(cmd.Spec.Path)` inside the exact-match loop can never
fire because the entry was kept only when `len(path) >= len(tokens)`, so
the loop is equality of the first `len(tokens)-1` positions. -/
def suggestSubcommandsStep (tokens : List String) (acc : List String × List Suggestion)
    (kv : String × CommandRuntime) : List String × List Suggestion :=
  let cmd := kv.2
  if cmd.spec.path.length < tokens.length then acc
  else if !(cmd.spec.path.take (tokens.length - 1) == tokens.take (tokens.length - 1)) then acc
  else
    let lastIdx := tokens.length - 1
    let lastToken := tokens.getD lastIdx ""
    if decide (lastIdx < cmd.spec.path.length) then
      let pathToken := cmd.spec.path.getD lastIdx ""
      if pathToken = lastToken then
        if decide (cmd.spec.path.length > tokens.length) then
          let nextToken := cmd.spec.path.getD tokens.length ""
          if nextToken ∈ acc.1 then acc
          else (nextToken :: acc.1,
                acc.2 ++ [{ value := nextToken, kind := .suggestCommand,
                            description := "", score := 50 }])
        else acc
      else if hasPrefix pathToken lastToken then
        if pathToken ∈ acc.1 then acc
        else (pathToken :: acc.1,
              acc.2 ++ [{ value := pathToken, kind := .suggestCommand,
                          description := "", score := scorePrefix pathToken lastToken }])
      else acc
    else acc

/-- Embedding of `Completer.suggestSubcommands` (registry is non-nil at
every call site). -/
def suggestSubcommands (reg : Registry) (tokens : List String) : List Suggestion :=
  match tokens with
  | [] => []
  | _ => sortSuggestions (reg.commands.foldl (suggestSubcommandsStep tokens) ([], [])).2

/-- Embedding of `Completer.suggestEnumValues`. -/
def suggestEnumValues (values : List String) (desc : String) : List Suggestion :=
  if values.isEmpty then []
  else sortSuggestions <| values.map fun v =>
    { value := v, kind := .suggestFlagValue, description := desc, score := 40 }

/-- Embedding of `Completer.suggestNamespaces`. -/
def suggestNamespaces (c : Completer) (ctx : CompletionContext) : List Suggestion :=
  match c.cache with
  | none => []
  | some cache =>
    sortSuggestions <| cache.namespaces.map fun ns =>
      { value := ns, kind := .suggestNamespace, description := "Namespace",
        score := 50 + (if ctx.currentNamespace ≠ "" ∧ ns = ctx.currentNamespace then 10 else 0) }

/-- Embedding of `Completer.suggestContainers`. -/
def suggestContainers (c : Completer) (ctx : CompletionContext)
    (kind name ns : String) : List Suggestion :=
  match c.cache with
  | none => []
  | some cache =>
    let ns := if ns = "" then ctx.currentNamespace else ns
    sortSuggestions <| (cache.containers ns kind name).map fun cn =>
      { value := cn, kind := .suggestContainer, description := "Container", score := 45 }

/-- Embedding of `Completer.suggestResourceTypes`. -/
def suggestResourceTypes (c : Completer) (cmd : CommandRuntime)
    (td : TokenDescriptor) : List Suggestion :=
  let types :=
    if !td.allowed.isEmpty then td.allowed
    else
      match c.cache with
      | none => []
      | some cache =>
        let rt := cache.resourceTypesForCommand cmd.spec.path
        if !rt.isEmpty then rt else cache.resourceTypes
  sortSuggestions <| types.map fun t =>
    { value := t, kind := .suggestResourceType, description := "Resource type", score := 55 }

/-- Embedding of `Completer.suggestResourceNames`. -/
def suggestResourceNames (c : Completer) (ctx : CompletionContext)
    (kind ns : String) : List Suggestion :=
  match c.cache with
  | none => []
  | some cache =>
    let ns := if ns = "" then ctx.currentNamespace else ns
    sortSuggestions <| (cache.resourceNames kind ns).map fun n =>
      { value := n, kind := .suggestResourceName,
        description := kind ++ " in " ++ ns, score := 50 }

/-- The backwards walk of `inferResourceKindFromArgs` over the reversed
argument list.  `notFirst` tracks Go's `i+1 < len(args)`; the `i -= 2`
step skips the next reversed element. -/
def inferKindAux (cmd : CommandRuntime) : List String → Bool → String
  | [], _ => ""
  | a :: rl, notFirst =>
    if isFlagToken a then
      match mapLookup cmd.aliasToPrimary a with
      | none => inferKindAux cmd rl true
      | some primary =>
        let flag := mapLookupD cmd.spec.flags primary defaultFlagDescriptor
        if flag.after.isSome && notFirst then
          match rl with
          | [] => ""
          | _ :: rl2 => inferKindAux cmd rl2 true
        else inferKindAux cmd rl true
    else if containsSub a "/" then ⟨takeBeforeSlash a.data⟩
    else inferKindAux cmd rl true

/-- Embedding of `inferResourceKindFromArgs`. -/
def inferResourceKindFromArgs (cmd : CommandRuntime) (args : List String) : String :=
  inferKindAux cmd args.reverse false

/-- The loop of `parseUsedFlags`. -/
def parseUsedFlagsAux (cmd : CommandRuntime) :
    List String → List (String × Bool) → List (String × Bool)
  | [], used => used
  | a :: rest, used =>
    if !isFlagToken a then parseUsedFlagsAux cmd rest used
    else
      match mapLookup cmd.aliasToPrimary a with
      | none => parseUsedFlagsAux cmd rest used
      | some primary =>
        let used := mapInsert used primary true
        let flag := mapLookupD cmd.spec.flags primary defaultFlagDescriptor
        if flag.after.isSome then
          match rest with
          | [] => used
          | _ :: rest2 => parseUsedFlagsAux cmd rest2 used
        else parseUsedFlagsAux cmd rest used

/-- Embedding of `parseUsedFlags`. -/
def parseUsedFlags (cmd : CommandRuntime) (args : List String) : List (String × Bool) :=
  parseUsedFlagsAux cmd args []

/-- The loop of `countSatisfiedPositionals`; `p` is `posIndex`. -/
def countSatAux (positionals : List TokenDescriptor) (cmd : CommandRuntime)
    (hts : Bool) : List String → Nat → Nat
  | [], p => p
  | a :: rest, p =>
    if decide (positionals.length ≤ p) then p
    else if isFlagToken a then
      match mapLookup cmd.aliasToPrimary a with
      | none => countSatAux positionals cmd hts rest p
      | some primary =>
        let flag := mapLookupD cmd.spec.flags primary defaultFlagDescriptor
        if flag.after.isSome then
          match rest with
          | [] => p
          | _ :: rest2 => countSatAux positionals cmd hts rest2 p
        else countSatAux positionals cmd hts rest p
    else if rest.isEmpty && !hts then p
    else countSatAux positionals cmd hts rest (p + 1)

/-- Embedding of `countSatisfiedPositionals`. -/
def countSatisfiedPositionals (positionals : List TokenDescriptor)
    (cmd : CommandRuntime) (args : List String) (hts : Bool) : Nat :=
  countSatAux positionals cmd hts args 0

/-- Embedding of `getFirstNonFlagArg`. -/
def getFirstNonFlagArg : List String → String
  | [] => ""
  | [a] => if !isFlagToken a then a else ""
  | a :: b :: rest2 =>
    if !isFlagToken a then a
    else if !isFlagToken b then getFirstNonFlagArg rest2
    else getFirstNonFlagArg (b :: rest2)

/-- Embedding of `extractNamespaceFromArgs` (its `cmd` parameter is
unused in the Go body as well). -/
def extractNamespaceFromArgs : List String → String
  | [] => ""
  | [_] => ""
  | a :: b :: rest =>
    if (a = "-n" || a = "--namespace") && !isFlagToken b then b
    else extractNamespaceFromArgs (b :: rest)

/-- Embedding of `Completer.suggestForPositional`. -/
def suggestForPositional (c : Completer) (cmd : CommandRuntime)
    (ctx : CompletionContext) (td : TokenDescriptor) (args : List String) :
    List Suggestion :=
  match td.kind with
  | .tokenResourceType => suggestResourceTypes c cmd td
  | .tokenResourceName | .tokenResourceNameOrSelector =>
    let kind := inferResourceKindFromArgs cmd args
    if kind = "" && args.isEmpty then suggestResourceTypes c cmd td
    else suggestResourceNames c ctx kind ctx.currentNamespace
  | .tokenNamespace => suggestNamespaces c ctx
  | .tokenContainerName =>
    suggestContainers c ctx (inferResourceKindFromArgs cmd args) "" ""
  | .tokenOutput => suggestEnumValues td.allowed "Output format"
  | _ => []

/-- Embedding of `scoreFlag`. -/
def scoreFlag (f : FlagDescriptor) : Int :=
  10 + (if f.required then 50 else 0) +
    (if f.role = "namespace-scope" then 40
     else if f.role = "label-selector" ∨ f.role = "field-selector" then 30
     else if f.role = "output-format" then 20
     else if f.role = "container-selector" then 18
     else 0) +
    (5 - (f.primary.length : Int))

/-- Embedding of `Completer.suggestPositionalsAndFlags` (second revision,
with the all-positionals-satisfied resource-name branch scoring 55,
"Higher than flags"). -/
def suggestPositionalsAndFlags (c : Completer) (cmd : CommandRuntime)
    (ctx : CompletionContext) (args : List String) (hts : Bool) : List Suggestion :=
  let spec := cmd.spec
  let usedFlags := parseUsedFlags cmd args
  let posIndex := countSatisfiedPositionals spec.positionals cmd args hts
  let out : List Suggestion :=
    match spec.positionals.get? posIndex with
    | some td => suggestForPositional c cmd ctx td args
    | none =>
      if decide (0 < posIndex) && posIndex == spec.positionals.length then
        match spec.positionals with
        | [] => []
        | firstPos :: _ =>
          if firstPos.kind = .tokenResourceType ∨ firstPos.kind = .tokenResourceName then
            let resourceType := getFirstNonFlagArg args
            if resourceType ≠ "" then
              match c.cache with
              | none => []
              | some cache =>
                let ns := extractNamespaceFromArgs args
                let ns := if ns = "" then ctx.currentNamespace else ns
                (cache.resourceNames resourceType ns).map fun name =>
                  { value := name, kind := .suggestResourceName,
                    description := resourceType ++ " in " ++ ns, score := 55 }
            else []
          else []
      else []
  let flagSuggestions := spec.flags.filterMap fun kv =>
    if mapLookupD usedFlags kv.1 false then none
    else some { value := kv.2.primary, kind := .suggestFlag,
                description := kv.2.description, score := scoreFlag kv.2 }
  sortSuggestions (out ++ flagSuggestions)

/-- Embedding of `Completer.suggestAfterFlag` (second revision). -/
def suggestAfterFlag (c : Completer) (cmd : CommandRuntime)
    (ctx : CompletionContext) (args : List String) (hts : Bool) : List Suggestion :=
  match args.getLast? with
  | none => []
  | some flagToken =>
    match mapLookup cmd.aliasToPrimary flagToken with
    | none => suggestPositionalsAndFlags c cmd ctx args hts
    | some primary =>
      match mapLookup cmd.spec.flags primary with
      | none => suggestPositionalsAndFlags c cmd ctx args hts
      | some flagDesc =>
        match flagDesc.after with
        | none => suggestPositionalsAndFlags c cmd ctx args hts
        | some td =>
          match td.kind with
          | .tokenNamespace => suggestNamespaces c ctx
          | .tokenOutput => suggestEnumValues td.allowed "Output format"
          | .tokenSelector => []
          | .tokenContainerName => suggestContainers c ctx "" "" ""
          | .tokenResourceType => suggestResourceTypes c cmd td
          | .tokenResourceName | .tokenResourceNameOrSelector =>
            suggestResourceNames c ctx (inferResourceKindFromArgs cmd args)
              ctx.currentNamespace
          | .tokenDuration | .tokenOther =>
            if !td.allowed.isEmpty then suggestEnumValues td.allowed td.role else []
          | _ => []

/-- Embedding of `Completer.Complete` (second revision): cursor clamping,
trailing-space detection, `kubectl` stripping, command matching, the
sub-command probe, the two flag-value cases, and the positional/flag
fallback.  The cursor is a byte offset in Go; the line is sliced by
character here, which coincides on the ASCII inputs of the spec. -/
def complete (c : Completer) (line : String) (cursor : Int)
    (ctx : CompletionContext) : List Suggestion :=
  match c.registry with
  | none => []
  | some reg =>
    let cursor := if cursor < 0 ∨ cursor > (line.length : Int) then (line.length : Int) else cursor
    let segment : String := ⟨line.data.take cursor.toNat⟩
    let hasTrailingSpace :=
      match segment.data.getLast? with
      | some ch => ch = ' ' || ch = '	'
      | none => false
    let tokens := normalizeKubectl (shellSplit segment)
    match tokens with
    | [] => suggestTopLevelCommands reg ""
    | t0 :: _ =>
      match matchCommand reg tokens with
      | none =>
        let subcommands := suggestSubcommands reg tokens
        if !subcommands.isEmpty then subcommands
        else suggestTopLevelCommands reg t0
      | some (cmd, pathLen) =>
        let probe :=
          if !hasTrailingSpace && pathLen == tokens.length then
            suggestSubcommands reg tokens
          else []
        if !probe.isEmpty then probe
        else
          let args := tokens.drop pathLen
          if !hasTrailingSpace && decide (2 ≤ args.length)
              && isFlagToken (args.getD (args.length - 2) "")
              && !isFlagToken (args.getD (args.length - 1) "") then
            suggestAfterFlag c cmd ctx (args.take (args.length - 1)) true
          else if hasTrailingSpace && !args.isEmpty
              && isFlagToken (args.getD (args.length - 1) "") then
            suggestAfterFlag c cmd ctx args hasTrailingSpace
          else
            suggestPositionalsAndFlags c cmd ctx args hasTrailingSpace

/-! ## `internal/k8s/cache.go`: the watch-event model

One watcher goroutine per kind applies `ADDED`/`MODIFIED`/`DELETED` events
under the cache's write lock.  The ten namespaced kinds (`pods`,
`deployments`, `services`, `configmaps`, `secrets`, `statefulsets`,
`daemonsets`, `jobs`, `cronjobs`, `ingresses`) have textually identical
event handlers over their own `map[string][]T` field (`watchPods` is the
template), so the state carries one bucket per kind and a single
`applyBucketEvent` embeds the shared handler.  Records are represented by
their names: the claims read only names and emptiness, and a `MODIFIED`
event replaces the record with the same name in place, leaving the name
multiset unchanged.  `watchNamespaces` is embedded separately because its
`DELETED` arm cascades over every namespaced bucket. -/

inductive NsKind where
  | pods
  | deployments
  | services
  | configmaps
  | secrets
  | statefulsets
  | daemonsets
  | jobs
  | cronjobs
  | ingresses
  deriving DecidableEq, Repr

inductive WatchEventType where
  | added
  | modified
  | deleted
  deriving DecidableEq, Repr

inductive WatchEvent where
  | nsEvent (t : WatchEventType) (name : String)
  | resEvent (k : NsKind) (t : WatchEventType) (ns name : String)
  deriving DecidableEq, Repr

structure CacheState where
  namespaces : List String
  buckets : NsKind → List (String × List String)

def initialCacheState : CacheState :=
  { namespaces := [], buckets := fun _ => [] }

/-- Go `append(l[:i], l[i+1:]...)` at the first index whose name matches. -/
def removeFirstName : List String → String → List String
  | [], _ => []
  | x :: rest, name => if x = name then rest else x :: removeFirstName rest name

/-- The event handler of `watchNamespaces`: `ADDED` appends when absent,
`DELETED` removes the namespace and drops every namespaced bucket keyed by
it (only when the namespace was found), `MODIFIED` replaces the record in
place (invisible on names). -/
def applyNamespaceEvent (s : CacheState) (t : WatchEventType) (name : String) : CacheState :=
  match t with
  | .added =>
    if name ∈ s.namespaces then s
    else { s with namespaces := s.namespaces ++ [name] }
  | .deleted =>
    if name ∈ s.namespaces then
      { namespaces := removeFirstName s.namespaces name,
        buckets := fun k => mapErase (s.buckets k) name }
    else s
  | .modified => s

/-- The shared per-kind event handler (`watchPods` et al.): `ADDED`
creates the bucket key if missing and appends the record when its name is
absent, `DELETED` removes the first record with that name when the key is
present (the key itself stays), `MODIFIED` replaces the same-named record
in place. -/
def applyBucketEvent (b : List (String × List String)) (t : WatchEventType)
    (ns name : String) : List (String × List String) :=
  match t with
  | .added =>
    let cur := mapLookupD b ns []
    mapInsert b ns (if name ∈ cur then cur else cur ++ [name])
  | .deleted =>
    match mapLookup b ns with
    | some l => mapInsert b ns (removeFirstName l name)
    | none => b
  | .modified => b

def step (s : CacheState) : WatchEvent → CacheState
  | .nsEvent t name => applyNamespaceEvent s t name
  | .resEvent k t ns name =>
    { s with buckets := fun k' =>
        if k' = k then applyBucketEvent (s.buckets k) t ns name else s.buckets k' }

def applyEvents (s : CacheState) (es : List WatchEvent) : CacheState :=
  es.foldl step s

/-- Embedding of the per-kind read (`GetPods(namespace)` et al.): Go map
indexing yields the bucket's slice, nil (empty) when the key is absent. -/
def readBucket (s : CacheState) (k : NsKind) (ns : String) : List String :=
  mapLookupD (s.buckets k) ns []

/-- Whether an event is an `ADDED` for a resource in namespace `N` (the
only event shape that can repopulate a namespaced bucket keyed by `N`). -/
def isResAddedTo (N : String) : WatchEvent → Bool
  | .resEvent _ .added ns _ => ns = N
  | _ => false

/-! ### Concrete grammar fixtures used as witness inputs -/

def rolloutSpecW : CommandSpec :=
  { path := ["rollout"], synopsis := "", description := "",
    positionals := [], flags := [] }

def rolloutRestartSpecW : CommandSpec :=
  { path := ["rollout", "restart"], synopsis := "", description := "",
    positionals := [], flags := [] }

def c3RootW : RootSpec :=
  { version := "1.0", generatedFrom := "",
    commands := [rolloutSpecW, rolloutRestartSpecW] }

def rolloutHistorySpecW : CommandSpec :=
  { path := ["rollout", "history"], synopsis := "", description := "",
    positionals := [], flags := [] }

def rolloutResumeSpecW : CommandSpec :=
  { path := ["rollout", "resume"], synopsis := "", description := "",
    positionals := [], flags := [] }

/-- The registry of claim C4: the `rollout restart`/`history`/`resume`
specs. -/
def c4Registry : Registry :=
  newRegistry { version := "1.0", generatedFrom := "",
                commands := [rolloutRestartSpecW, rolloutHistorySpecW, rolloutResumeSpecW] }

def defaultCtx : CompletionContext :=
  { line := "", cursor := 0, currentNamespace := "default" }

/-- The `rollout restart` spec of claim C5: one `resource-type` positional
with the workload enum. -/
def restartSpecC5 : CommandSpec :=
  { path := ["rollout", "restart"], synopsis := "", description := "",
    positionals := [{ kind := .tokenResourceType, role := "", required := true,
                      value := "", allowed := ["deployment", "daemonset", "statefulset"] }],
    flags := [] }

/-- The cache snapshot of claim C5: deployments `api`, `worker` in
`default`. -/
def cacheC5 : ClusterCache :=
  { namespaces := ["default"], resourceTypes := [],
    resourceTypesForCommand := fun _ => [],
    resourceNames := fun kind ns =>
      if kind = "deployment" ∧ ns = "default" then ["api", "worker"] else [],
    containers := fun _ _ _ => [] }

def compC5 : Completer :=
  { registry := some (newRegistry { version := "1.0", generatedFrom := "",
                                    commands := [restartSpecC5] }),
    cache := some cacheC5 }

end Purr




namespace Purr

/-! ## Claim theorems -/

/-- **C1.** The claim states that `is_destructive` examines the first
non-`kubectl` token and in particular that
`is_destructive("kubectl delete pod foo")` returns `true`.  The code never
strips a leading `kubectl`, so the verb examined there is the literal token
`kubectl` and the call returns `false`; dropping the `kubectl` prefix
yields `true` as the claim intends.  This theorem evaluates the code at the
failing input (and at the prefix-free variant). -/
theorem c1_isDestructive_kubectl_prefix_bug :
    isDestructive "kubectl delete pod foo" = false ∧
    isDestructive "delete pod foo" = true := by
  constructor <;> decide

/-- **C2.** The claim states that parsing
`kubectl apply -f deployment.yaml -n prod --force` couples `-f` with the
file name (`flags={"filename":"deployment.yaml","namespace":"prod"}`,
`bool_flags={"force"}`, `files=["deployment.yaml"]`).  In the code,
`isBooleanFlag` lists the short letter `f`, so `-f` is consumed as a
boolean flag (recorded under its expansion `filename`), the file name
becomes the first positional (`resource`), and `files` stays empty.  This
theorem evaluates the parser at the failing input, exhibiting the actual
output. -/
theorem c2_parse_apply_short_f_bug :
    parse "kubectl apply -f deployment.yaml -n prod --force" =
      { raw := "kubectl apply -f deployment.yaml -n prod --force",
        verb := "apply", resource := "deployment.yaml", resourceName := "",
        «namespace» := "prod", flags := [("namespace", "prod")],
        boolFlags := [("filename", true), ("force", true)], files := [],
        isComplete := true, needsInput := [], isValid := true, errors := [] } := by
  decide

/-- **C8.** Parsing `kubectl get pods -A -A` sets
`bool_flags["all-namespaces"] = true` with `is_valid = true`, and giving
the boolean flag twice produces exactly the same `bool_flags` (and indeed
the same parse) as giving it once. -/
theorem c8_bool_flag_idempotent :
    mapLookup (parse "kubectl get pods -A -A").boolFlags "all-namespaces" = some true ∧
    (parse "kubectl get pods -A -A").isValid = true ∧
    (parse "kubectl get pods -A -A").boolFlags = (parse "kubectl get pods -A").boolFlags := by
  refine ⟨by decide, by decide, by decide⟩

/-- **C9.** For every input whose trimmed form begins with `!`, `parse`
returns `is_valid = false` with `errors = ["shell command"]` and the
remainder unparsed: verb, resource, resource name, namespace, flags,
boolean flags, files, and completion needs all stay empty (`parse` is a
total Lean function, so parsing never fails). -/
theorem c9_parse_shell_command (s : String)
    (h : hasPrefix (trimSpace s) "!" = true) :
    parse s =
      { raw := s, verb := "", resource := "", resourceName := "",
        «namespace» := "", flags := [], boolFlags := [], files := [],
        isComplete := false, needsInput := [], isValid := false,
        errors := ["shell command"] } := by
  simp only [parse, h, if_true, List.nil_append]

/-- Witness for C9 at the concrete shell command `"!rm -rf /"`. -/
theorem c9_parse_shell_command_witness :
    hasPrefix (trimSpace "!rm -rf /") "!" = true ∧
    parse "!rm -rf /" =
      { raw := "!rm -rf /", verb := "", resource := "", resourceName := "",
        «namespace» := "", flags := [], boolFlags := [], files := [],
        isComplete := false, needsInput := [], isValid := false,
        errors := ["shell command"] } :=
  ⟨by decide, c9_parse_shell_command "!rm -rf /" (by decide)⟩

/-! ### Registry lemmas (C3) -/

theorem stringDataEq {x y : String} (h : x.data = y.data) : x = y :=
  congrArg String.mk h

theorem stringDataAppend (a b : String) : (a ++ b).data = a.data ++ b.data := by
  cases a; cases b; rfl

theorem lexLtChars_asymm :
    ∀ (a b : List Char), lexLtChars a b = true → lexLtChars b a = false := by
  intro a
  induction a with
  | nil => intro b h; cases b with
    | nil => simp [lexLtChars] at h
    | cons y ys => simp [lexLtChars]
  | cons x xs ih =>
    intro b h
    cases b with
    | nil => simp [lexLtChars] at h
    | cons y ys =>
      simp only [lexLtChars] at h ⊢
      by_cases hxy : charLt x y = true
      · have hyx : charLt y x = false := by
          unfold charLt at hxy ⊢
          simp at hxy ⊢
          omega
        simp [hxy, hyx]
      · by_cases hyx : charLt y x = true
        · simp [hxy, hyx] at h
        · simp only [hxy, hyx] at h ⊢
          simp only [Bool.not_eq_true] at hxy hyx
          simp [hxy, hyx]
          exact ih ys (by simpa [hxy, hyx] using h)

theorem lexLtChars_le_trans :
    ∀ (a b c : List Char), lexLtChars b a = false → lexLtChars c b = false →
      lexLtChars c a = false := by
  intro a
  induction a with
  | nil =>
    intro b c _ _
    cases c with
    | nil => simp [lexLtChars]
    | cons z zs => simp [lexLtChars]
  | cons x xs ih =>
    intro b c h1 h2
    cases b with
    | nil => simp [lexLtChars] at h1
    | cons y ys =>
      cases c with
      | nil => simp [lexLtChars] at h2
      | cons z zs =>
        simp only [lexLtChars, charLt] at h1 h2 ⊢
        by_cases hyx : y.toNat < x.toNat
        · simp [hyx] at h1
        · by_cases hzy : z.toNat < y.toNat
          · simp [hzy] at h2
          · have hzx : ¬ z.toNat < x.toNat := by omega
            simp only [hyx, hzy, hzx, decide_eq_true_eq, if_false, if_neg,
              decide_False] at h1 h2 ⊢
            by_cases hxz : x.toNat < z.toNat
            · simp [hxz]
            · have hxy : ¬ x.toNat < y.toNat := by omega
              have hyz : ¬ y.toNat < z.toNat := by omega
              simp only [hxy, hyz, hxz, decide_False, if_false] at h1 h2 ⊢
              exact ih ys zs h1 h2

theorem strLe_total (a b : String) : strLe a b = true ∨ strLe b a = true := by
  unfold strLe strLt
  by_cases h : lexLtChars b.data a.data = true
  · right
    have := lexLtChars_asymm _ _ h
    simp [this]
  · left
    simp [Bool.not_eq_true] at h
    simp [h]

theorem strLe_trans {a b c : String}
    (h1 : strLe a b = true) (h2 : strLe b c = true) : strLe a c = true := by
  unfold strLe strLt at h1 h2 ⊢
  simp only [Bool.not_eq_true'] at h1 h2 ⊢
  exact lexLtChars_le_trans _ _ _ h1 h2

instance : IsTotal String (fun a b => strLe a b = true) :=
  ⟨strLe_total⟩

instance : IsTrans String (fun a b => strLe a b = true) :=
  ⟨fun _ _ _ => strLe_trans⟩

instance : IsTotal Suggestion suggOrdered := by
  constructor
  intro a b
  unfold suggOrdered
  rcases lt_trichotomy a.score b.score with h | h | h
  · right; left; exact h
  · rcases strLe_total a.value b.value with hv | hv
    · left; right; exact ⟨h, hv⟩
    · right; right; exact ⟨h.symm, hv⟩
  · left; left; exact h

instance : IsTrans Suggestion suggOrdered := by
  constructor
  intro a b c hab hbc
  unfold suggOrdered at hab hbc ⊢
  rcases hab with h1 | ⟨h1, h1v⟩ <;> rcases hbc with h2 | ⟨h2, h2v⟩
  · left; omega
  · left; omega
  · left; omega
  · right; exact ⟨by omega, strLe_trans h1v h2v⟩

theorem mapLookup_insert_self {α : Type} (m : List (String × α)) (k : String) (v : α) :
    mapLookup (mapInsert m k v) k = some v := by
  induction m with
  | nil => simp [mapInsert, mapLookup]
  | cons kv rest ih =>
    obtain ⟨k0, w⟩ := kv
    by_cases h : k0 = k
    · subst h; simp [mapInsert, mapLookup]
    · simp [mapInsert, mapLookup, h, ih]

theorem mapLookup_insert_ne {α : Type} (m : List (String × α)) (k : String) (v : α)
    (key : String) (h : k ≠ key) :
    mapLookup (mapInsert m k v) key = mapLookup m key := by
  induction m with
  | nil => simp [mapInsert, mapLookup, h]
  | cons kv rest ih =>
    obtain ⟨k0, w⟩ := kv
    by_cases h0 : k0 = k
    · subst h0; simp [mapInsert, mapLookup, h]
    · simp [mapInsert, mapLookup, h0, ih]

theorem buildLookup_none (specs : List CommandSpec) :
    ∀ (m : List (String × CommandRuntime)) (key : String),
      mapLookup (specs.foldl
        (fun m spec => mapInsert m (joinTokens spec.path) (mkRuntime spec)) m) key = none →
      mapLookup m key = none ∧ ∀ spec ∈ specs, joinTokens spec.path ≠ key := by
  induction specs with
  | nil => intro m key h; simpa using h
  | cons spec specs ih =>
    intro m key h
    rw [List.foldl_cons] at h
    obtain ⟨h1, h2⟩ := ih _ key h
    have hne : joinTokens spec.path ≠ key := by
      intro e
      rw [e, mapLookup_insert_self] at h1
      cases h1
    rw [mapLookup_insert_ne _ _ _ _ hne] at h1
    refine ⟨h1, ?_⟩
    intro sp hsp
    rcases List.mem_cons.mp hsp with h | h
    · subst h; exact hne
    · exact h2 sp h

theorem buildLookup_some (specs : List CommandSpec) :
    ∀ (m : List (String × CommandRuntime)) (key : String) (rt : CommandRuntime),
      mapLookup (specs.foldl
        (fun m spec => mapInsert m (joinTokens spec.path) (mkRuntime spec)) m) key = some rt →
      (∃ spec ∈ specs, joinTokens spec.path = key ∧ rt = mkRuntime spec) ∨
        mapLookup m key = some rt := by
  induction specs with
  | nil => intro m key rt h; right; simpa using h
  | cons spec specs ih =>
    intro m key rt h
    rw [List.foldl_cons] at h
    rcases ih _ key rt h with ⟨sp, hsp, hkey, hrt⟩ | h1
    · exact Or.inl ⟨sp, List.mem_cons_of_mem _ hsp, hkey, hrt⟩
    · by_cases he : joinTokens spec.path = key
      · rw [he, mapLookup_insert_self] at h1
        exact Or.inl ⟨spec, List.mem_cons_self _ _, he, (Option.some_inj.mp h1).symm⟩
      · rw [mapLookup_insert_ne _ _ _ _ he] at h1
        exact Or.inr h1

theorem matchCommandAux_some (r : Registry) (tokens : List String) :
    ∀ (i : Nat) (cmd : CommandRuntime) (c : Nat),
      matchCommandAux r tokens i = some (cmd, c) →
      (1 ≤ c ∧ c ≤ i) ∧
        mapLookup r.commands (joinTokens (tokens.take c)) = some cmd ∧
        ∀ j, c < j → j ≤ i →
          mapLookup r.commands (joinTokens (tokens.take j)) = none := by
  intro i
  induction i with
  | zero => intro cmd c h; simp [matchCommandAux] at h
  | succ i ih =>
    intro cmd c h
    rw [matchCommandAux] at h
    rcases heq : mapLookup r.commands (joinTokens (tokens.take (i + 1))) with _ | cmd0
    · rw [heq] at h
      obtain ⟨⟨hc1, hc2⟩, hl, hmax⟩ := ih cmd c h
      refine ⟨⟨hc1, Nat.le_succ_of_le hc2⟩, hl, ?_⟩
      intro j hj1 hj2
      rcases Nat.lt_or_ge j (i + 1) with hj | hj
      · exact hmax j hj1 (by omega)
      · have : j = i + 1 := Nat.le_antisymm hj2 hj
        rw [this]; exact heq
    · rw [heq] at h
      injection h with h
      injection h with h1 h2
      subst h1; subst h2
      refine ⟨⟨Nat.succ_le_succ (Nat.zero_le _), Nat.le_refl _⟩, heq, ?_⟩
      intro j hj1 hj2
      omega

theorem matchCommandAux_none (r : Registry) (tokens : List String) :
    ∀ (i : Nat), matchCommandAux r tokens i = none →
      ∀ j, 1 ≤ j → j ≤ i →
        mapLookup r.commands (joinTokens (tokens.take j)) = none := by
  intro i
  induction i with
  | zero => intro _ j hj1 hj2; omega
  | succ i ih =>
    intro h j hj1 hj2
    rw [matchCommandAux] at h
    rcases heq : mapLookup r.commands (joinTokens (tokens.take (i + 1))) with _ | cmd0
    · rw [heq] at h
      rcases Nat.lt_or_ge j (i + 1) with hj | hj
      · exact ih h j hj1 (Nat.lt_succ_iff.mp hj)
      · have : j = i + 1 := Nat.le_antisymm hj2 hj
        rw [this]; exact heq
    · rw [heq] at h; cases h

theorem sep_split_unique :
    ∀ (as bs us vs : List Char), ' ' ∉ as → ' ' ∉ bs →
      as ++ ' ' :: us = bs ++ ' ' :: vs → as = bs ∧ us = vs := by
  intro as
  induction as with
  | nil =>
    intro bs us vs _ hb h
    cases bs with
    | nil => simpa using h
    | cons b bs' =>
      exfalso
      rw [List.nil_append, List.cons_append] at h
      injection h with h1 _
      exact hb (h1 ▸ List.mem_cons_self _ _)
  | cons a as' ih =>
    intro bs us vs ha hb h
    cases bs with
    | nil =>
      exfalso
      rw [List.nil_append, List.cons_append] at h
      injection h with h1 _
      exact ha (h1 ▸ List.mem_cons_self _ _)
    | cons b bs' =>
      rw [List.cons_append, List.cons_append] at h
      injection h with h1 h2
      have ha' : ' ' ∉ as' := fun hm => ha (List.mem_cons_of_mem _ hm)
      have hb' : ' ' ∉ bs' := fun hm => hb (List.mem_cons_of_mem _ hm)
      obtain ⟨e1, e2⟩ := ih bs' us vs ha' hb' h2
      exact ⟨by rw [h1, e1], e2⟩

theorem joinTokens_cons₂ (x y : String) (xs : List String) :
    (joinTokens (x :: y :: xs)).data = x.data ++ ' ' :: (joinTokens (y :: xs)).data := by
  have h : joinTokens (x :: y :: xs) = x ++ " " ++ joinTokens (y :: xs) := by
    simp [joinTokens]
  rw [h, stringDataAppend, stringDataAppend]
  simp

theorem joinTokens_inj :
    ∀ (xs ys : List String), (∀ t ∈ xs, cleanToken t) → (∀ t ∈ ys, cleanToken t) →
      joinTokens xs = joinTokens ys → xs = ys := by
  intro xs
  induction xs with
  | nil =>
    intro ys _ hy h
    cases ys with
    | nil => rfl
    | cons y ys' =>
      exfalso
      cases ys' with
      | nil =>
        have : y = "" := by simpa [joinTokens] using h.symm
        exact (hy y (List.mem_cons_self _ _)).1 this
      | cons y' ys'' =>
        have hd := congrArg String.data h
        rw [joinTokens_cons₂] at hd
        simp [joinTokens] at hd
  | cons x xs' ih =>
    intro ys hx hy h
    cases ys with
    | nil =>
      exfalso
      cases xs' with
      | nil =>
        have : x = "" := by simpa [joinTokens] using h
        exact (hx x (List.mem_cons_self _ _)).1 this
      | cons x' xs'' =>
        have hd := congrArg String.data h
        rw [joinTokens_cons₂] at hd
        simp [joinTokens] at hd
    | cons y ys' =>
      cases xs' with
      | nil =>
        cases ys' with
        | nil => simpa [joinTokens] using h
        | cons y' ys'' =>
          exfalso
          have hd := congrArg String.data h
          rw [joinTokens_cons₂] at hd
          simp only [joinTokens] at hd
          have : ' ' ∈ x.data := by
            rw [hd]
            exact List.mem_append_right _ (List.mem_cons_self _ _)
          exact (hx x (List.mem_cons_self _ _)).2 this
      | cons x' xs'' =>
        cases ys' with
        | nil =>
          exfalso
          have hd := congrArg String.data h
          rw [joinTokens_cons₂] at hd
          simp only [joinTokens] at hd
          have : ' ' ∈ y.data := by
            rw [← hd]
            exact List.mem_append_right _ (List.mem_cons_self _ _)
          exact (hy y (List.mem_cons_self _ _)).2 this
        | cons y' ys'' =>
          have hd := congrArg String.data h
          rw [joinTokens_cons₂, joinTokens_cons₂] at hd
          obtain ⟨e1, e2⟩ :=
            sep_split_unique _ _ _ _ (hx x (List.mem_cons_self _ _)).2
              (hy y (List.mem_cons_self _ _)).2 hd
          have ex : x = y := stringDataEq e1
          have etail : x' :: xs'' = y' :: ys'' := by
            apply ih _ (fun t ht => hx t (List.mem_cons_of_mem _ ht))
              (fun t ht => hy t (List.mem_cons_of_mem _ ht))
            exact stringDataEq e2
          rw [ex, etail]

theorem collectFirstTokens_nodup :
    ∀ (cmds : List (String × CommandRuntime)) (seen out : List String),
      out.Nodup → (∀ x ∈ out, x ∈ seen) → (collectFirstTokens cmds seen out).Nodup := by
  intro cmds
  induction cmds with
  | nil => intro seen out h _; simpa [collectFirstTokens] using h
  | cons kv rest ih =>
    intro seen out hnd hsub
    obtain ⟨key, rt⟩ := kv
    rw [collectFirstTokens]
    rcases hsp : splitOnSpace key with _ | ⟨first, parts⟩
    · exact ih seen out hnd hsub
    · by_cases hmem : first ∈ seen
      · simp only [hmem, if_true]
        exact ih seen out hnd hsub
      · simp only [hmem, if_false]
        apply ih
        · rw [List.nodup_append]
          refine ⟨hnd, List.nodup_singleton _, ?_⟩
          intro x hxo hx1
          rcases List.mem_singleton.mp hx1 with h
          exact hmem (h ▸ hsub x hxo)
        · intro x hx
          rcases List.mem_append.mp hx with hxo | hx1
          · exact List.mem_cons_of_mem _ (hsub x hxo)
          · rw [List.mem_singleton.mp hx1]; exact List.mem_cons_self _ _

/-- **C3 counterexample.**  The registry map is keyed by the SPACE-JOINED
path, so a spec whose single path component itself contains a space (legal
in the input JSON) is matched by the two tokens it collides with:
`match_command(["a","b"])` returns that spec with `consumed = 2` although
no spec's `path` is a list-prefix of `["a","b"]` — the claim, which demands
"nothing" in that case, is false for this registry. -/
theorem c3_match_join_collision :
    matchCommand
        (newRegistry { version := "1.0", generatedFrom := "",
                       commands := [{ path := ["a b"], synopsis := "", description := "",
                                      positionals := [], flags := [] }] })
        ["a", "b"] =
      some (mkRuntime { path := ["a b"], synopsis := "", description := "",
                        positionals := [], flags := [] }, 2) ∧
    ¬ ((["a b"] : List String) <+: ["a", "b"]) := by
  constructor
  · decide
  · decide

/-- **C3 (amended).**  For every registry built from an input JSON whose
path components are nonempty and space-free, and for every token list of
nonempty space-free tokens (`strings.Fields` output always is):
`top_level_commands()` is sorted ascending without duplicates, and
`match_command(tokens)` returns a spec whose path is exactly the consumed
prefix of `tokens` and is longest among all specs whose path is a prefix
of `tokens`, or nothing when no spec's path is a prefix.  (The original
claim, quantified over ALL input JSON, fails when a path component
contains a space — see the counterexample.) -/
theorem c3_registry_determinism (root : RootSpec) (tokens : List String)
    (hpaths : ∀ spec ∈ root.commands, spec.path ≠ [] ∧ ∀ t ∈ spec.path, cleanToken t)
    (htokens : ∀ t ∈ tokens, cleanToken t) :
    (List.Sorted (fun a b => strLe a b = true) (topLevelCommands (newRegistry root)) ∧
      (topLevelCommands (newRegistry root)).Nodup) ∧
    (∀ cmd consumed, matchCommand (newRegistry root) tokens = some (cmd, consumed) →
      cmd.spec.path = tokens.take consumed ∧ consumed ≤ tokens.length ∧
        (∃ spec ∈ root.commands, cmd = mkRuntime spec) ∧
        ∀ spec ∈ root.commands, spec.path <+: tokens → spec.path.length ≤ consumed) ∧
    (matchCommand (newRegistry root) tokens = none →
      ∀ spec ∈ root.commands, ¬ spec.path <+: tokens) := by
  have hclean_take : ∀ (c : Nat) (t : String), t ∈ tokens.take c → cleanToken t :=
    fun c t ht => htokens t (List.take_subset c tokens ht)
  refine ⟨⟨?_, ?_⟩, ?_, ?_⟩
  · exact List.sorted_insertionSort _ _
  · exact ((List.perm_insertionSort _ _).nodup_iff).mpr
      (collectFirstTokens_nodup _ [] [] List.nodup_nil (by simp))
  · intro cmd consumed h
    rcases tokens with _ | ⟨t0, ts⟩
    · simp [matchCommand] at h
    have haux : matchCommandAux (newRegistry root) (t0 :: ts) (t0 :: ts).length =
        some (cmd, consumed) := h
    obtain ⟨⟨hc1, hc2⟩, hl, hmax⟩ := matchCommandAux_some _ _ _ _ _ haux
    rcases buildLookup_some root.commands [] _ _ hl with ⟨spec, hspec, hkey, hrt⟩ | hfalse
    · have hpath : spec.path = (t0 :: ts).take consumed :=
        joinTokens_inj _ _ (hpaths spec hspec).2 (hclean_take consumed) hkey
      refine ⟨by rw [hrt, mkRuntime]; exact hpath, hc2, ⟨spec, hspec, hrt⟩, ?_⟩
      intro sp hsp hpre
      by_contra hgt
      push_neg at hgt
      have hlen : sp.path.length ≤ (t0 :: ts).length := hpre.length_le
      have htake : (t0 :: ts).take sp.path.length = sp.path :=
        (List.prefix_iff_eq_take.mp hpre).symm
      have hnone := hmax sp.path.length hgt hlen
      obtain ⟨_, hall⟩ := buildLookup_none root.commands [] _ hnone
      exact hall sp hsp (by rw [htake])
    · simp [mapLookup] at hfalse
  · intro h spec hspec hpre
    rcases tokens with _ | ⟨t0, ts⟩
    · exact (hpaths spec hspec).1 (List.prefix_nil.mp hpre)
    have haux : matchCommandAux (newRegistry root) (t0 :: ts) (t0 :: ts).length = none := h
    have hj1 : 1 ≤ spec.path.length := by
      rcases hp : spec.path with _ | _
      · exact absurd hp (hpaths spec hspec).1
      · simp [hp]
    have hlen : spec.path.length ≤ (t0 :: ts).length := hpre.length_le
    have htake : (t0 :: ts).take spec.path.length = spec.path :=
      (List.prefix_iff_eq_take.mp hpre).symm
    have hnone := matchCommandAux_none _ _ _ haux spec.path.length hj1 hlen
    obtain ⟨_, hall⟩ := buildLookup_none root.commands [] _ hnone
    exact hall spec hspec (by rw [htake])

/-- Witness for the amended C3 at a concrete two-spec grammar and the
token list `["rollout", "restart", "api"]`. -/
theorem c3_registry_determinism_witness :
    (List.Sorted (fun a b => strLe a b = true) (topLevelCommands (newRegistry c3RootW)) ∧
      (topLevelCommands (newRegistry c3RootW)).Nodup) ∧
    (mkRuntime rolloutRestartSpecW).spec.path =
      (["rollout", "restart", "api"] : List String).take 2 := by
  have h := c3_registry_determinism c3RootW ["rollout", "restart", "api"]
    (by decide) (by decide)
  exact ⟨h.1, (h.2.1 (mkRuntime rolloutRestartSpecW) 2 (by decide)).1⟩

/-! ### Completion-scenario claims (C4, C5) -/

/-- **C4 counterexample.**  For the registry holding the `rollout
restart`/`history`/`resume` specs, completing `rollout r|` yields exactly
`restart` and `resume`: `suggestSubcommands` keeps only path tokens that
extend the typed prefix `r`, and `"history"` does not start with `r`, so
the claim's demand that a `history` suggestion be present is false. -/
theorem c4_rollout_r_no_history :
    complete { registry := some c4Registry, cache := none } "rollout r" 9 defaultCtx =
      [{ value := "restart", kind := .suggestCommand, description := "", score := 11 },
       { value := "resume", kind := .suggestCommand, description := "", score := 11 }] ∧
    "history" ∉ (complete { registry := some c4Registry, cache := none }
      "rollout r" 9 defaultCtx).map (·.value) := by
  exact ⟨by decide, by decide⟩

/-- **C4 (amended).**  For the registry holding the `rollout
restart`/`history`/`resume` specs, completing `rollout r|` returns
`restart` as the top suggestion and `resume` below it (both scored
`10 + len("r") = 11`); `history` is NOT suggested because it does not
start with the typed prefix `r`; every returned suggestion is a
sub-command suggestion, so in particular no flag suggestion scores at or
above any of them. -/
theorem c4_rollout_r_subcommands :
    (complete { registry := some c4Registry, cache := none }
        "rollout r" 9 defaultCtx).head? =
      some { value := "restart", kind := .suggestCommand, description := "", score := 11 } ∧
    { value := "resume", kind := SuggestionKind.suggestCommand, description := "",
      score := 11 } ∈
      complete { registry := some c4Registry, cache := none } "rollout r" 9 defaultCtx ∧
    "history" ∉ (complete { registry := some c4Registry, cache := none }
      "rollout r" 9 defaultCtx).map (·.value) ∧
    ∀ s ∈ complete { registry := some c4Registry, cache := none } "rollout r" 9 defaultCtx,
      s.kind = SuggestionKind.suggestCommand ∧ s.score = 11 := by
  refine ⟨by decide, by decide, by decide, by decide⟩

/-- **C5 counterexample.**  With the C5 registry and cache, completing
`rollout restart deployment |` emits the deployment names `api`, `worker`
as `resource-name` suggestions scored 55 (`suggestPositionalsAndFlags`'s
all-positionals-satisfied branch, commented "Higher than flags"), not 50
as the claim states for every resource-name suggestion. -/
theorem c5_resource_name_55 :
    complete compC5 "rollout restart deployment " 27 defaultCtx =
      [{ value := "api", kind := .suggestResourceName,
         description := "deployment in default", score := 55 },
       { value := "worker", kind := .suggestResourceName,
         description := "deployment in default", score := 55 }] ∧
    ∀ s ∈ complete compC5 "rollout restart deployment " 27 defaultCtx,
      s.kind = SuggestionKind.suggestResourceName ∧ s.score ≠ 50 := by
  exact ⟨by decide, by decide⟩

theorem mem_sortSuggestions {s : Suggestion} {l : List Suggestion} :
    s ∈ sortSuggestions l ↔ s ∈ l :=
  (List.perm_insertionSort _ _).mem_iff

/-- **C5 (amended).**  Resource-name suggestions built by
`suggestResourceNames` score 50 (resource types 55, containers 45), but
the resource-name suggestions emitted when all positionals are satisfied
and the first positional was a resource type score 55: for
`rollout restart deployment |` the deployment-name suggestions score 55,
not 50. -/
theorem c5_resource_name_scores :
    (∀ (c : Completer) (ctx : CompletionContext) (kind ns : String) (s : Suggestion),
      s ∈ suggestResourceNames c ctx kind ns →
        s.kind = SuggestionKind.suggestResourceName ∧ s.score = 50) ∧
    (∀ (c : Completer) (cmd : CommandRuntime) (td : TokenDescriptor) (s : Suggestion),
      s ∈ suggestResourceTypes c cmd td →
        s.kind = SuggestionKind.suggestResourceType ∧ s.score = 55) ∧
    (∀ (c : Completer) (ctx : CompletionContext) (kind name ns : String) (s : Suggestion),
      s ∈ suggestContainers c ctx kind name ns →
        s.kind = SuggestionKind.suggestContainer ∧ s.score = 45) ∧
    (∀ s ∈ complete compC5 "rollout restart deployment " 27 defaultCtx,
      s.kind = SuggestionKind.suggestResourceName ∧ s.score = 55) := by
  refine ⟨?_, ?_, ?_, by decide⟩
  · intro c ctx kind ns s hs
    unfold suggestResourceNames at hs
    rcases hc : c.cache with _ | cache
    · rw [hc] at hs; simp at hs
    · rw [hc] at hs
      rw [mem_sortSuggestions] at hs
      obtain ⟨n, _, rfl⟩ := List.mem_map.mp hs
      exact ⟨rfl, rfl⟩
  · intro c cmd td s hs
    unfold suggestResourceTypes at hs
    rw [mem_sortSuggestions] at hs
    obtain ⟨t, _, rfl⟩ := List.mem_map.mp hs
    exact ⟨rfl, rfl⟩
  · intro c ctx kind name ns s hs
    unfold suggestContainers at hs
    rcases hc : c.cache with _ | cache
    · rw [hc] at hs; simp at hs
    · rw [hc] at hs
      rw [mem_sortSuggestions] at hs
      obtain ⟨cn, _, rfl⟩ := List.mem_map.mp hs
      exact ⟨rfl, rfl⟩

/-- Witness for the amended C5: `suggestResourceNames` on the C5 cache
scores `api` at 50, while the full `rollout restart deployment |`
completion scores it at 55. -/
theorem c5_resource_name_scores_witness :
    (({ value := "api", kind := .suggestResourceName,
        description := "deployment in default", score := 50 } : Suggestion).kind =
          SuggestionKind.suggestResourceName ∧
      ({ value := "api", kind := .suggestResourceName,
         description := "deployment in default", score := 50 } : Suggestion).score = 50) ∧
    (({ value := "api", kind := .suggestResourceName,
        description := "deployment in default", score := 55 } : Suggestion).kind =
          SuggestionKind.suggestResourceName ∧
      ({ value := "api", kind := .suggestResourceName,
         description := "deployment in default", score := 55 } : Suggestion).score = 55) := by
  have h := c5_resource_name_scores
  exact ⟨h.1 compC5 defaultCtx "deployment" "default" _ (by decide),
         h.2.2.2 _ (by decide)⟩

/-! ### Suggestion-ordering claims (C6) -/

theorem chain'_sortSuggestions (l : List Suggestion) :
    List.Chain' suggOrdered (sortSuggestions l) :=
  (List.sorted_insertionSort suggOrdered l).chain'

theorem chain'_suggestTopLevelCommands (reg : Registry) (pre : String) :
    List.Chain' suggOrdered (suggestTopLevelCommands reg pre) := by
  unfold suggestTopLevelCommands
  exact chain'_sortSuggestions _

theorem chain'_suggestSubcommands (reg : Registry) (tokens : List String) :
    List.Chain' suggOrdered (suggestSubcommands reg tokens) := by
  unfold suggestSubcommands
  cases tokens with
  | nil => exact List.chain'_nil
  | cons t ts => exact chain'_sortSuggestions _

theorem chain'_suggestEnumValues (values : List String) (desc : String) :
    List.Chain' suggOrdered (suggestEnumValues values desc) := by
  unfold suggestEnumValues
  split
  · exact List.chain'_nil
  · exact chain'_sortSuggestions _

theorem chain'_suggestNamespaces (c : Completer) (ctx : CompletionContext) :
    List.Chain' suggOrdered (suggestNamespaces c ctx) := by
  unfold suggestNamespaces
  cases c.cache with
  | none => exact List.chain'_nil
  | some cache => exact chain'_sortSuggestions _

theorem chain'_suggestContainers (c : Completer) (ctx : CompletionContext)
    (kind name ns : String) :
    List.Chain' suggOrdered (suggestContainers c ctx kind name ns) := by
  unfold suggestContainers
  cases c.cache with
  | none => exact List.chain'_nil
  | some cache => exact chain'_sortSuggestions _

theorem chain'_suggestResourceTypes (c : Completer) (cmd : CommandRuntime)
    (td : TokenDescriptor) :
    List.Chain' suggOrdered (suggestResourceTypes c cmd td) := by
  unfold suggestResourceTypes
  exact chain'_sortSuggestions _

theorem chain'_suggestResourceNames (c : Completer) (ctx : CompletionContext)
    (kind ns : String) :
    List.Chain' suggOrdered (suggestResourceNames c ctx kind ns) := by
  unfold suggestResourceNames
  cases c.cache with
  | none => exact List.chain'_nil
  | some cache => exact chain'_sortSuggestions _

theorem chain'_suggestForPositional (c : Completer) (cmd : CommandRuntime)
    (ctx : CompletionContext) (td : TokenDescriptor) (args : List String) :
    List.Chain' suggOrdered (suggestForPositional c cmd ctx td args) := by
  unfold suggestForPositional
  split
  · exact chain'_suggestResourceTypes _ _ _
  · dsimp only
    split
    · exact chain'_suggestResourceTypes _ _ _
    · exact chain'_suggestResourceNames _ _ _ _
  · dsimp only
    split
    · exact chain'_suggestResourceTypes _ _ _
    · exact chain'_suggestResourceNames _ _ _ _
  · exact chain'_suggestNamespaces _ _
  · exact chain'_suggestContainers _ _ _ _ _
  · exact chain'_suggestEnumValues _ _
  · exact List.chain'_nil

theorem chain'_suggestPositionalsAndFlags (c : Completer) (cmd : CommandRuntime)
    (ctx : CompletionContext) (args : List String) (hts : Bool) :
    List.Chain' suggOrdered (suggestPositionalsAndFlags c cmd ctx args hts) := by
  unfold suggestPositionalsAndFlags
  exact chain'_sortSuggestions _

theorem chain'_suggestAfterFlag (c : Completer) (cmd : CommandRuntime)
    (ctx : CompletionContext) (args : List String) (hts : Bool) :
    List.Chain' suggOrdered (suggestAfterFlag c cmd ctx args hts) := by
  unfold suggestAfterFlag
  split
  · exact List.chain'_nil
  · split
    · exact chain'_suggestPositionalsAndFlags _ _ _ _ _
    · split
      · exact chain'_suggestPositionalsAndFlags _ _ _ _ _
      · split
        · exact chain'_suggestPositionalsAndFlags _ _ _ _ _
        · split
          · exact chain'_suggestNamespaces _ _
          · exact chain'_suggestEnumValues _ _
          · exact List.chain'_nil
          · exact chain'_suggestContainers _ _ _ _ _
          · exact chain'_suggestResourceTypes _ _ _
          · exact chain'_suggestResourceNames _ _ _ _
          · exact chain'_suggestResourceNames _ _ _ _
          · split
            · exact chain'_suggestEnumValues _ _
            · exact List.chain'_nil
          · split
            · exact chain'_suggestEnumValues _ _
            · exact List.chain'_nil
          · exact List.chain'_nil

/-- **C6.**  For every completer, line, cursor, and context, the
suggestion list returned by `complete` is sorted by descending score with
ties broken by ascending value: adjacent suggestions `s_i`, `s_{i+1}`
satisfy `s_i.score > s_{i+1}.score` or (`s_i.score = s_{i+1}.score` and
`s_i.value <= s_{i+1}.value`). -/
theorem c6_complete_sorted (c : Completer) (line : String) (cursor : Int)
    (ctx : CompletionContext) :
    List.Chain' suggOrdered (complete c line cursor ctx) := by
  unfold complete
  cases c.registry with
  | none => exact List.chain'_nil
  | some reg =>
    repeat' first
      | exact List.chain'_nil
      | exact chain'_suggestTopLevelCommands _ _
      | exact chain'_suggestSubcommands _ _
      | exact chain'_suggestAfterFlag _ _ _ _ _
      | exact chain'_suggestPositionalsAndFlags _ _ _ _ _
      | split
      | dsimp only

/-! ### Cursor clamping (C10) -/

/-- **C10.**  For every line and every cursor outside `[0, len(line)]`
(negative or past the end), `Complete(line, cursor, ctx)` equals
`Complete(line, len(line), ctx)`: the cursor is clamped to the end of the
line, and `complete` is a total function that never indexes the line out
of bounds. -/
theorem c10_cursor_clamped (c : Completer) (line : String) (cursor : Int)
    (ctx : CompletionContext) (h : cursor < 0 ∨ cursor > (line.length : Int)) :
    complete c line cursor ctx = complete c line (line.length : Int) ctx := by
  unfold complete
  cases c.registry with
  | none => rfl
  | some reg =>
    have h2 : ¬ ((line.length : Int) < 0 ∨ (line.length : Int) > (line.length : Int)) := by
      omega
    rw [if_pos h, if_neg h2]

/-- Witness for C10 at the negative cursor `-3`. -/
theorem c10_cursor_clamped_witness :
    ((-3 : Int) < 0 ∨ (-3 : Int) > (("rollout restart deployment " : String).length : Int)) ∧
    complete compC5 "rollout restart deployment " (-3) defaultCtx =
      complete compC5 "rollout restart deployment "
        (("rollout restart deployment " : String).length : Int) defaultCtx :=
  ⟨by decide,
   c10_cursor_clamped compC5 "rollout restart deployment " (-3) defaultCtx (by decide)⟩

/-! ### Cache-cascade claims (C7) -/

theorem mapLookup_eq_none_of_not_mem_keys {α : Type} (m : List (String × α)) (key : String)
    (h : key ∉ m.map Prod.fst) : mapLookup m key = none := by
  induction m with
  | nil => rfl
  | cons kv rest ih =>
    obtain ⟨k, v⟩ := kv
    simp only [List.map_cons, List.mem_cons, not_or] at h
    have hk : k ≠ key := fun e => h.1 e.symm
    simp only [mapLookup, if_neg hk]
    exact ih h.2

theorem mapLookup_mapErase_self {α : Type} (m : List (String × α)) (key : String)
    (h : (m.map Prod.fst).Nodup) : mapLookup (mapErase m key) key = none := by
  induction m with
  | nil => rfl
  | cons kv rest ih =>
    obtain ⟨k, v⟩ := kv
    simp only [List.map_cons, List.nodup_cons] at h
    by_cases hk : k = key
    · rw [mapErase, if_pos hk]
      exact mapLookup_eq_none_of_not_mem_keys rest key (hk ▸ h.1)
    · rw [mapErase, if_neg hk, mapLookup, if_neg hk]
      exact ih h.2

theorem mapLookup_mapErase_ne {α : Type} (m : List (String × α)) (key key' : String)
    (h : key ≠ key') : mapLookup (mapErase m key) key' = mapLookup m key' := by
  induction m with
  | nil => rfl
  | cons kv rest ih =>
    obtain ⟨k, v⟩ := kv
    by_cases hk : k = key
    · subst hk
      rw [mapErase, if_pos rfl, mapLookup, if_neg h]
    · rw [mapErase, if_neg hk, mapLookup, mapLookup]
      by_cases hk' : k = key'
      · rw [if_pos hk', if_pos hk']
      · rw [if_neg hk', if_neg hk']
        exact ih

theorem mem_keys_mapInsert {α : Type} (m : List (String × α)) (k : String) (v : α)
    (key : String) :
    key ∈ (mapInsert m k v).map Prod.fst ↔ key ∈ m.map Prod.fst ∨ key = k := by
  induction m with
  | nil => simp [mapInsert, eq_comm]
  | cons kv rest ih =>
    obtain ⟨k0, w⟩ := kv
    by_cases hk : k0 = k
    · subst hk
      rw [mapInsert, if_pos rfl]
      simp only [List.map_cons, List.mem_cons]
      tauto
    · rw [mapInsert, if_neg hk]
      simp only [List.map_cons, List.mem_cons, ih]
      tauto

theorem keysNodup_mapInsert {α : Type} (m : List (String × α)) (k : String) (v : α)
    (h : (m.map Prod.fst).Nodup) : ((mapInsert m k v).map Prod.fst).Nodup := by
  induction m with
  | nil => simp [mapInsert]
  | cons kv rest ih =>
    obtain ⟨k0, w⟩ := kv
    simp only [List.map_cons, List.nodup_cons] at h
    by_cases hk : k0 = k
    · subst hk
      rw [mapInsert, if_pos rfl]
      simp only [List.map_cons, List.nodup_cons]
      exact ⟨h.1, h.2⟩
    · rw [mapInsert, if_neg hk]
      simp only [List.map_cons, List.nodup_cons]
      refine ⟨?_, ih h.2⟩
      intro hm
      rcases (mem_keys_mapInsert rest k v k0).mp hm with hm | hm
      · exact h.1 hm
      · exact hk hm

theorem mapErase_sublist {α : Type} (m : List (String × α)) (key : String) :
    List.Sublist (mapErase m key) m := by
  induction m with
  | nil => exact List.Sublist.refl _
  | cons kv rest ih =>
    obtain ⟨k, v⟩ := kv
    by_cases hk : k = key
    · rw [mapErase, if_pos hk]
      exact List.sublist_cons_self _ _
    · rw [mapErase, if_neg hk]
      exact List.Sublist.cons₂ _ ih

def stateWF (s : CacheState) : Prop :=
  ∀ k, ((s.buckets k).map Prod.fst).Nodup

theorem stateWF_initial : stateWF initialCacheState := by
  intro k; simp [initialCacheState]

theorem stateWF_step (s : CacheState) (e : WatchEvent) (h : stateWF s) :
    stateWF (step s e) := by
  cases e with
  | nsEvent t name =>
    cases t with
    | added =>
      intro k
      simp only [step, applyNamespaceEvent]
      split
      · exact h k
      · exact h k
    | modified => exact h
    | deleted =>
      intro k
      simp only [step, applyNamespaceEvent]
      split
      · exact ((mapErase_sublist _ _).map _).nodup (h k)
      · exact h k
  | resEvent k0 t ns name =>
    intro k
    simp only [step]
    by_cases hk : k = k0
    · simp only [if_pos hk]
      cases t with
      | added => exact keysNodup_mapInsert _ _ _ (h k0)
      | modified => exact h k0
      | deleted =>
        simp only [applyBucketEvent]
        rcases hl : mapLookup (s.buckets k0) ns with _ | l
        · exact h k0
        · exact keysNodup_mapInsert _ _ _ (h k0)
    · simp only [if_neg hk]
      exact h k

theorem readBucket_empty_step (s : CacheState) (e : WatchEvent) (N : String)
    (hwf : stateWF s) (hread : ∀ k, readBucket s k N = [])
    (he : isResAddedTo N e = false) :
    ∀ k, readBucket (step s e) k N = [] := by
  cases e with
  | nsEvent t name =>
    cases t with
    | added =>
      intro k
      simp only [step, applyNamespaceEvent]
      split
      · exact hread k
      · exact hread k
    | modified => exact hread
    | deleted =>
      intro k
      simp only [step, applyNamespaceEvent]
      split
      · by_cases hn : name = N
        · subst hn
          simp only [readBucket, mapLookupD, mapLookup_mapErase_self _ _ (hwf k)]
          rfl
        · simp only [readBucket, mapLookupD, mapLookup_mapErase_ne _ _ _ hn]
          exact hread k
      · exact hread k
  | resEvent k0 t ns name =>
    intro k
    simp only [step, readBucket]
    by_cases hk : k = k0
    · simp only [if_pos hk]
      cases t with
      | added =>
        have hns : ns ≠ N := by
          simp [isResAddedTo] at he
          exact he
        simp only [applyBucketEvent, mapLookupD, mapLookup_insert_ne _ _ _ _ hns]
        exact hread k0
      | modified => exact hread k0
      | deleted =>
        simp only [applyBucketEvent]
        rcases hl : mapLookup (s.buckets k0) ns with _ | l
        · exact hread k0
        · by_cases hns : ns = N
          · subst hns
            have : l = [] := by
              have := hread k0
              simp only [readBucket, mapLookupD, hl] at this
              exact this
            subst this
            simp only [mapLookupD, mapLookup_insert_self]
            rfl
          · simp only [mapLookupD, mapLookup_insert_ne _ _ _ _ hns]
            exact hread k0
    · simp only [if_neg hk]
      exact hread k

theorem readBucket_empty_applyEvents (N : String) :
    ∀ (post : List WatchEvent) (s : CacheState), stateWF s →
      (∀ k, readBucket s k N = []) →
      (∀ e ∈ post, isResAddedTo N e = false) →
      ∀ k, readBucket (applyEvents s post) k N = [] := by
  intro post
  induction post with
  | nil => intro s _ hread _; exact hread
  | cons e rest ih =>
    intro s hwf hread hpost
    simp only [applyEvents, List.foldl_cons]
    exact ih (step s e) (stateWF_step s e hwf)
      (readBucket_empty_step s e N hwf hread (hpost e (List.mem_cons_self _ _)))
      (fun e' he' => hpost e' (List.mem_cons_of_mem _ he'))

theorem stateWF_applyEvents (es : List WatchEvent) :
    ∀ (s : CacheState), stateWF s → stateWF (applyEvents s es) := by
  induction es with
  | nil => intro s h; exact h
  | cons e rest ih =>
    intro s h
    simp only [applyEvents, List.foldl_cons]
    exact ih (step s e) (stateWF_step s e h)

/-- **C7 counterexample.**  From the empty cache, after `namespace ns1
ADDED`, `namespace ns1 DELETED`, a plain `pod ADDED` in `ns1` repopulates
the pods bucket keyed `ns1` — yet no `ADDED` event for namespace `ns1`
itself was applied after the deletion.  The claim, which requires every
read keyed `ns1` to stay empty until a namespace-`ADDED`, is false on this
sequence. -/
theorem c7_pod_added_repopulates :
    readBucket
        (applyEvents initialCacheState
          [WatchEvent.nsEvent .added "ns1", WatchEvent.nsEvent .deleted "ns1",
           WatchEvent.resEvent .pods .added "ns1" "p"])
        .pods "ns1" = ["p"] ∧
    WatchEvent.nsEvent .added "ns1" ∉ [WatchEvent.resEvent .pods .added "ns1" "p"] := by
  exact ⟨by decide, by decide⟩

/-- **C7 (amended).**  In every sequence of watch events applied from the
initial cache, after a namespace `DELETED` event for a namespace `N`
present in the namespaces bucket, every read of every namespaced bucket
keyed by `N` returns empty at all subsequent states, until an `ADDED`
event FOR A RESOURCE IN namespace `N` (of any namespaced kind) is
applied; in particular a namespace `ADDED` event for `N` itself does not
repopulate the buckets. -/
theorem c7_namespace_cascade (pre post : List WatchEvent) (N : String)
    (hmem : N ∈ (applyEvents initialCacheState pre).namespaces)
    (hpost : ∀ e ∈ post, isResAddedTo N e = false) :
    ∀ k, readBucket
        (applyEvents initialCacheState (pre ++ WatchEvent.nsEvent .deleted N :: post))
        k N = [] := by
  have hsplit : applyEvents initialCacheState (pre ++ WatchEvent.nsEvent .deleted N :: post) =
      applyEvents (step (applyEvents initialCacheState pre) (WatchEvent.nsEvent .deleted N)) post := by
    simp [applyEvents, List.foldl_append]
  rw [hsplit]
  set s := applyEvents initialCacheState pre with hs
  have hwf : stateWF s := stateWF_applyEvents pre initialCacheState stateWF_initial
  have hdel : ∀ k, readBucket (step s (WatchEvent.nsEvent .deleted N)) k N = [] := by
    intro k
    simp only [step, applyNamespaceEvent, if_pos hmem]
    simp only [readBucket, mapLookupD, mapLookup_mapErase_self _ _ (hwf k)]
    rfl
  exact readBucket_empty_applyEvents N post _
    (stateWF_step s _ hwf) hdel hpost

/-- Witness for the amended C7: after `ns1` is created, a pod appears in
it, and `ns1` is deleted, re-adding the namespace `ns1` itself still
leaves the pods bucket keyed `ns1` empty. -/
theorem c7_namespace_cascade_witness :
    readBucket
        (applyEvents initialCacheState
          ([WatchEvent.nsEvent .added "ns1", WatchEvent.resEvent .pods .added "ns1" "p"] ++
            WatchEvent.nsEvent .deleted "ns1" :: [WatchEvent.nsEvent .added "ns1"]))
        .pods "ns1" = [] :=
  c7_namespace_cascade
    [WatchEvent.nsEvent .added "ns1", WatchEvent.resEvent .pods .added "ns1" "p"]
    [WatchEvent.nsEvent .added "ns1"] "ns1" (by decide) (by decide) .pods

end Purr






